import Mathlib

/-!
Verification of the request-to-document mapping engine of `webhook2stdout`
(`main.go`): the source extractor (`extractValue`, `parseBody`) and the
document assembler (`buildOutput`, `mergeRootObject`).

Modelling conventions:
* Go's dynamic `any` values that flow through the engine are modelled by the
  tagged sum `Value` (object / string / number / bool / null / array); a Go
  `map[string]any` object is an association list with no duplicate keys.
* Go's `type Source string` is a plain `String`.
* The fiber request context is outside the repository; it is modelled from the
  spec's external-interface boundary as `RequestContext` (bytes body,
  multi-valued header and query maps, route params, method, path, ip) together
  with an abstract JSON decoder standing for `encoding/json.Unmarshal`.
* The assembler's loop state (`output` map, `rootValue`/`hasRootValue`) is
  `BuildState`; Go's `rootValue any` plus `hasRootValue bool` pair is an
  `Option Value` (JSON null is the distinct `Value.null`, so `isSome` is
  exactly `hasRootValue`).
* `fmt.Errorf` messages are modelled as structured error constructors keeping
  the data the message interpolates.
-/

namespace Webhook2Stdout

/-- Go `type Source string` (`main.go` line 13). -/
abbrev Source := String

def SourceBody : Source := "body"

def SourceHeaders : Source := "headers"

def SourceQuery : Source := "query"

def SourceParams : Source := "params"

def SourceMethod : Source := "method"

def SourcePath : Source := "path"

def SourceIP : Source := "ip"

/-- Go `FieldMapping` struct (`main.go` lines 25-29); `from` is a Lean keyword,
hence the field name `from'`. -/
structure FieldMapping where
  from' : Source
  to' : String
  root : Bool

/-- Dynamic JSON-like values: the shapes `any` takes in the engine
(objects from `json.Unmarshal`/map sources, strings, numbers, booleans,
null, arrays). Objects are association lists standing for Go maps. -/
inductive Value where
  | obj : List (String × Value) → Value
  | str : String → Value
  | num : Int → Value
  | boolean : Bool → Value
  | null : Value
  | arr : List Value → Value

/-- The Go type assertion `value.(map[string]any)` succeeds exactly on
object values. -/
def Value.isObj : Value → Bool
  | .obj _ => true
  | _ => false

/-- Go map lookup `l[k]` with comma-ok semantics, on the association-list
model of a map. -/
def lookupKV {α : Type} : List (String × α) → String → Option α
  | [], _ => none
  | (k', v) :: rest, k => if k' = k then some v else lookupKV rest k

/-- Go map assignment `l[k] = v` on the association-list model: replaces the
binding in place or appends a fresh one, so keys stay duplicate-free. -/
def insertKV {α : Type} : List (String × α) → String → α → List (String × α)
  | [], k, v => [(k, v)]
  | (k', v') :: rest, k, v =>
      if k' = k then (k, v) :: rest else (k', v') :: insertKV rest k v

/-- Errors of `extractValue` (`main.go` line 217): the `default` switch case
for a source string outside the closed enumeration. -/
inductive ExtractError where
  | unsupportedSource : Source → ExtractError

/-- Errors of `buildOutput` (`main.go` lines 142-187), one constructor per
`fmt.Errorf` site, keeping the interpolated data. -/
inductive BuildError where
  | extraction : Source → String → ExtractError → BuildError
  | mixedRootObjectAfterScalar : Source → BuildError
  | rootCollision : Source → String → BuildError
  | scalarRootAfterKeyed : Source → BuildError
  | scalarRootTwice : Source → BuildError
  | keyedAfterScalarRoot : Source → BuildError

/-- The spec's `MixedRootError` kind: every `buildOutput` error that rejects
combining a scalar root with keyed fields or another root. -/
def BuildError.isMixedRoot : BuildError → Bool
  | .mixedRootObjectAfterScalar _ => true
  | .scalarRootAfterKeyed _ => true
  | .scalarRootTwice _ => true
  | .keyedAfterScalarRoot _ => true
  | _ => false

/-- The spec's `RootCollisionError` kind. -/
def BuildError.isRootCollision : BuildError → Bool
  | .rootCollision _ _ => true
  | _ => false

/-- Go `mergeRootObject` (`main.go` lines 189-198): fold the object's entries
into `dst`, failing on the first key already present; on error the colliding
key is returned. -/
def mergeRootObject (dst : List (String × Value)) :
    List (String × Value) → Except String (List (String × Value))
  | [] => .ok dst
  | (k, v) :: rest =>
      if (lookupKV dst k).isSome then .error k
      else mergeRootObject (insertKV dst k v) rest

/-- The assembler's loop state: the accumulating keyed-output map and the
scalar-root slot (`output`, `rootValue`/`hasRootValue` in `main.go`
lines 143-147). -/
structure BuildState where
  output : List (String × Value)
  rootValue : Option Value

/-- One iteration of the `buildOutput` loop (`main.go` lines 149-181) for
mapping `m`, given the per-request extraction function `e`. -/
def processMapping (e : Source → Except ExtractError Value) (m : FieldMapping)
    (st : BuildState) : Except BuildError BuildState :=
  match e m.from' with
  | .error err => .error (.extraction m.from' m.to' err)
  | .ok value =>
    if m.root then
      match value with
      | .obj o =>
        if st.rootValue.isSome then
          .error (.mixedRootObjectAfterScalar m.from')
        else
          match mergeRootObject st.output o with
          | .error k => .error (.rootCollision m.from' k)
          | .ok out => .ok ⟨out, st.rootValue⟩
      | _ =>
        if st.output.length > 0 then
          .error (.scalarRootAfterKeyed m.from')
        else if st.rootValue.isSome then
          .error (.scalarRootTwice m.from')
        else
          .ok ⟨st.output, some value⟩
    else
      if st.rootValue.isSome then
        .error (.keyedAfterScalarRoot m.from')
      else
        .ok ⟨insertKV st.output m.to' value, st.rootValue⟩

/-- The `for _, m := range mappings` loop of `buildOutput`, processing the
remaining mappings from state `st` and stopping at the first error. -/
def buildLoop (e : Source → Except ExtractError Value) :
    List FieldMapping → BuildState → Except BuildError BuildState
  | [], st => .ok st
  | m :: rest, st =>
      match processMapping e m st with
      | .error err => .error err
      | .ok st' => buildLoop e rest st'

/-- Go `buildOutput` (`main.go` lines 142-187): run the loop from the empty
state; return the scalar root if one was set, else the keyed-output map. -/
def buildOutput (e : Source → Except ExtractError Value)
    (mappings : List FieldMapping) : Except BuildError Value :=
  match buildLoop e mappings ⟨[], none⟩ with
  | .error err => .error err
  | .ok st =>
      match st.rootValue with
      | some v => .ok v
      | none => .ok (.obj st.output)

/-- Go `parseBody` (`main.go` lines 235-246). The raw body bytes are modelled
as a Lean string (Go strings are byte strings) and `json.Unmarshal`, which
lives outside the repository, as the abstract decoder `decode`, returning
`none` exactly when decoding fails. -/
def parseBody (decode : String → Option Value) (raw : String) :
    Except ExtractError Value :=
  if raw.length = 0 then .ok (.obj [])
  else
    match decode raw with
    | some parsed => .ok parsed
    | none => .ok (.str raw)

/-- Modelled from the spec: the request-context capability set of the
external-interface boundary (body bytes, multi-valued header map,
multi-valued query-parameter map, matched route params, method, path, client
address), which the Go code reads from the fiber context — a dependency
outside this repository — plus the external JSON decoder used by `parseBody`. -/
structure RequestContext where
  body : String
  reqHeaders : List (String × List String)
  queryParams : List (String × List String)
  routeParams : List (String × String)
  method : String
  path : String
  ip : String
  jsonDecode : String → Option Value

/-- A multi-valued string map presented as a JSON object of string arrays. -/
def multiMapToValue (m : List (String × List String)) : List (String × Value) :=
  m.map (fun p => (p.1, .arr (p.2.map .str)))

/-- A single-valued string map presented as a JSON object of strings. -/
def strMapToValue (m : List (String × String)) : List (String × Value) :=
  m.map (fun p => (p.1, .str p.2))

/-- Go `extractValue` (`main.go` lines 200-219): the switch on the source
kind, reading the request-context capabilities. -/
def extractValue (c : RequestContext) (source : Source) :
    Except ExtractError Value :=
  if source = SourceBody then parseBody c.jsonDecode c.body
  else if source = SourceHeaders then .ok (.obj (multiMapToValue c.reqHeaders))
  else if source = SourceQuery then .ok (.obj (multiMapToValue c.queryParams))
  else if source = SourceParams then .ok (.obj (strMapToValue c.routeParams))
  else if source = SourceMethod then .ok (.str c.method)
  else if source = SourcePath then .ok (.str c.path)
  else if source = SourceIP then .ok (.str c.ip)
  else .error (.unsupportedSource source)

/-- A concrete sample extraction function (the view of one fixed request):
a POST to `/hook` with an object body, an object query overlapping the body
on `id`, and an object header map disjoint from the body. -/
def exA : Source → Except ExtractError Value := fun s =>
  if s = SourceMethod then .ok (.str "POST")
  else if s = SourcePath then .ok (.str "/hook")
  else if s = SourceIP then .ok (.str "203.0.113.9")
  else if s = SourceBody then .ok (.obj [("id", .num 1), ("event", .str "x")])
  else if s = SourceQuery then .ok (.obj [("id", .str "7"), ("page", .str "2")])
  else if s = SourceHeaders then .ok (.obj [("ua", .str "curl")])
  else .error (.unsupportedSource s)

/-! ### Basic lemmas about the association-list map operations -/

theorem lookupKV_insertKV {α : Type} (l : List (String × α)) (k k' : String) (v : α) :
    lookupKV (insertKV l k v) k' = if k = k' then some v else lookupKV l k' := by
  induction l with
  | nil => simp [insertKV, lookupKV]
  | cons p rest ih =>
    obtain ⟨k0, v0⟩ := p
    by_cases h0 : k0 = k
    · subst h0
      simp only [insertKV, if_pos rfl, lookupKV]
      by_cases h1 : k0 = k'
      · simp [h1]
      · simp [h1]
    · simp only [insertKV, if_neg h0, lookupKV, ih]
      by_cases h1 : k0 = k'
      · subst h1
        simp [Ne.symm h0]
      · simp [h1]

theorem lookupKV_isSome_iff_mem {α : Type} (l : List (String × α)) (k : String) :
    (lookupKV l k).isSome = true ↔ k ∈ l.map Prod.fst := by
  induction l with
  | nil => simp [lookupKV]
  | cons p rest ih =>
    obtain ⟨k0, v0⟩ := p
    by_cases h : k0 = k
    · subst h
      simp [lookupKV]
    · have hne : k ≠ k0 := fun hc => h hc.symm
      simp [lookupKV, h, ih, hne]

theorem insertKV_insertKV_same {α : Type} (l : List (String × α)) (k : String) (v : α) :
    insertKV (insertKV l k v) k v = insertKV l k v := by
  induction l with
  | nil => simp [insertKV]
  | cons p rest ih =>
    obtain ⟨k0, v0⟩ := p
    by_cases h : k0 = k
    · subst h
      simp [insertKV]
    · simp [insertKV, h, ih]

/-! ### Lemmas about `mergeRootObject` -/

theorem mergeRootObject_disjoint_ok (obj : List (String × Value)) :
    ∀ dst : List (String × Value),
      (obj.map Prod.fst).Nodup →
      (∀ k ∈ obj.map Prod.fst, lookupKV dst k = none) →
      ∃ out, mergeRootObject dst obj = .ok out ∧
        ∀ k, lookupKV out k = (lookupKV obj k).orElse (fun _ => lookupKV dst k) := by
  induction obj with
  | nil =>
    intro dst _ _
    exact ⟨dst, rfl, by simp [lookupKV]⟩
  | cons p rest ih =>
    intro dst hnd hdisj
    obtain ⟨k0, v0⟩ := p
    have hd0 : lookupKV dst k0 = none := hdisj k0 (by simp)
    have hnd' : (rest.map Prod.fst).Nodup := by
      simpa using hnd.of_cons
    have hk0 : k0 ∉ rest.map Prod.fst := by
      have := hnd
      simp only [List.map_cons, List.nodup_cons] at this
      exact this.1
    have hdisj' : ∀ k ∈ rest.map Prod.fst, lookupKV (insertKV dst k0 v0) k = none := by
      intro k hk
      rw [lookupKV_insertKV]
      have hne : k0 ≠ k := fun h => hk0 (h ▸ hk)
      rw [if_neg hne]
      exact hdisj k (by simp [hk])
    obtain ⟨out, hout, hlook⟩ := ih (insertKV dst k0 v0) hnd' hdisj'
    refine ⟨out, ?_, ?_⟩
    · simp [mergeRootObject, hd0, hout]
    · intro k
      rw [hlook k, lookupKV_insertKV]
      by_cases h : k0 = k
      · subst h
        have : lookupKV rest k0 = none := by
          cases hr : lookupKV rest k0 with
          | none => rfl
          | some v =>
            exact absurd ((lookupKV_isSome_iff_mem rest k0).mp (by simp [hr])) hk0
        simp [lookupKV, this]
      · simp [lookupKV, h]

theorem mergeRootObject_overlap_error (obj : List (String × Value)) (k : String) :
    ∀ dst : List (String × Value),
      (lookupKV obj k).isSome = true →
      (lookupKV dst k).isSome = true →
      ∃ kc, mergeRootObject dst obj = .error kc := by
  induction obj with
  | nil =>
    intro dst hobj _
    simp [lookupKV] at hobj
  | cons p rest ih =>
    intro dst hobj hdst
    obtain ⟨k0, v0⟩ := p
    by_cases hd : (lookupKV dst k0).isSome = true
    · exact ⟨k0, by simp [mergeRootObject, hd]⟩
    · by_cases hk : k0 = k
      · subst hk
        exact absurd hdst hd
      · have hobj' : (lookupKV rest k).isSome = true := by
          simpa [lookupKV, hk] using hobj
        have hdst' : (lookupKV (insertKV dst k0 v0) k).isSome = true := by
          rw [lookupKV_insertKV, if_neg hk]
          exact hdst
        obtain ⟨kc, hmerge⟩ := ih (insertKV dst k0 v0) hobj' hdst'
        refine ⟨kc, ?_⟩
        simp only [mergeRootObject, hd]
        simpa [Bool.not_eq_true] using hmerge

/-! ### Lemmas about the assembler loop -/

theorem buildLoop_append (e : Source → Except ExtractError Value)
    (l1 l2 : List FieldMapping) (st : BuildState) :
    buildLoop e (l1 ++ l2) st =
      match buildLoop e l1 st with
      | .ok st' => buildLoop e l2 st'
      | .error err => .error err := by
  induction l1 generalizing st with
  | nil => simp [buildLoop]
  | cons m rest ih =>
    simp only [List.cons_append, buildLoop]
    cases processMapping e m st with
    | error err => rfl
    | ok st' => exact ih st'

/-- The state invariant that `buildOutput` maintains: once a scalar root is
set, the keyed-output map is empty. -/
def BuildState.inv (st : BuildState) : Prop :=
  st.rootValue.isSome = true → st.output = []

theorem processMapping_inv {e : Source → Except ExtractError Value}
    {m : FieldMapping} {st st' : BuildState}
    (h : processMapping e m st = .ok st') : st'.inv := by
  unfold processMapping at h
  repeat' split at h
  all_goals try injection h with h
  all_goals try subst h
  all_goals simp_all [BuildState.inv]

theorem buildLoop_inv {e : Source → Except ExtractError Value}
    {ms : List FieldMapping} {st st' : BuildState} (hinv : st.inv)
    (h : buildLoop e ms st = .ok st') : st'.inv := by
  induction ms generalizing st with
  | nil =>
    simp only [buildLoop] at h
    cases h
    exact hinv
  | cons m rest ih =>
    simp only [buildLoop] at h
    cases hp : processMapping e m st with
    | error err => rw [hp] at h; cases h
    | ok st1 =>
      rw [hp] at h
      exact ih (processMapping_inv hp) h

theorem stringLengthZero (s : String) : s.length = 0 ↔ s = "" := by
  cases s with
  | mk data =>
    constructor
    · intro h
      have hd : data = [] := by simpa [String.length] using h
      subst hd
      rfl
    · intro h
      rw [h]
      rfl

/-! ### Equation lemmas for one step of the assembler -/

theorem Value.isObj_iff (v : Value) : v.isObj = true ↔ ∃ o, v = .obj o := by
  cases v <;> simp [Value.isObj]

theorem processMapping_extractError_eq (e : Source → Except ExtractError Value)
    (m : FieldMapping) (st : BuildState) (err : ExtractError)
    (hex : e m.from' = .error err) :
    processMapping e m st = .error (.extraction m.from' m.to' err) := by
  unfold processMapping
  rw [hex]

theorem processMapping_keyed_eq (e : Source → Except ExtractError Value)
    (m : FieldMapping) (st : BuildState) (v : Value)
    (hex : e m.from' = .ok v) (hm : m.root = false) :
    processMapping e m st =
      if st.rootValue.isSome then .error (.keyedAfterScalarRoot m.from')
      else .ok ⟨insertKV st.output m.to' v, st.rootValue⟩ := by
  unfold processMapping
  rw [hex]
  simp [hm]

theorem processMapping_objRoot_eq (e : Source → Except ExtractError Value)
    (m : FieldMapping) (st : BuildState) (o : List (String × Value))
    (hex : e m.from' = .ok (.obj o)) (hm : m.root = true) :
    processMapping e m st =
      if st.rootValue.isSome then .error (.mixedRootObjectAfterScalar m.from')
      else
        match mergeRootObject st.output o with
        | .error k => .error (.rootCollision m.from' k)
        | .ok out => .ok ⟨out, st.rootValue⟩ := by
  unfold processMapping
  rw [hex]
  simp [hm]

theorem processMapping_scalarRoot_eq (e : Source → Except ExtractError Value)
    (m : FieldMapping) (st : BuildState) (v : Value)
    (hex : e m.from' = .ok v) (hm : m.root = true) (hobj : v.isObj = false) :
    processMapping e m st =
      if st.output.length > 0 then .error (.scalarRootAfterKeyed m.from')
      else if st.rootValue.isSome then .error (.scalarRootTwice m.from')
      else .ok ⟨st.output, some v⟩ := by
  unfold processMapping
  rw [hex]
  cases v <;> simp_all [Value.isObj]

/-! ### Lifting one step into a whole `buildOutput` run -/

theorem buildOutput_error_of_step (e : Source → Except ExtractError Value)
    (pre post : List FieldMapping) (m : FieldMapping) (st : BuildState)
    (err : BuildError)
    (hpre : buildLoop e pre ⟨[], none⟩ = .ok st)
    (hstep : processMapping e m st = .error err) :
    buildOutput e (pre ++ m :: post) = .error err := by
  unfold buildOutput
  rw [buildLoop_append, hpre]
  simp [buildLoop, hstep]

theorem buildLoop_snoc_ok (e : Source → Except ExtractError Value)
    (pre : List FieldMapping) (m : FieldMapping) (st st' : BuildState)
    (hpre : buildLoop e pre ⟨[], none⟩ = .ok st)
    (hstep : processMapping e m st = .ok st') :
    buildLoop e (pre ++ [m]) ⟨[], none⟩ = .ok st' := by
  rw [buildLoop_append, hpre]
  simp [buildLoop, hstep]

theorem buildOutput_of_loop (e : Source → Except ExtractError Value)
    (ms : List FieldMapping) (st : BuildState)
    (h : buildLoop e ms ⟨[], none⟩ = .ok st) :
    buildOutput e ms =
      match st.rootValue with
      | some v => .ok v
      | none => .ok (.obj st.output) := by
  unfold buildOutput
  rw [h]

theorem buildLoop_singleton (e : Source → Except ExtractError Value)
    (m : FieldMapping) (st : BuildState) :
    buildLoop e [m] st = processMapping e m st := by
  cases h : processMapping e m st <;> simp [buildLoop, h]

theorem buildLoop_append_ok (e : Source → Except ExtractError Value)
    (l1 l2 : List FieldMapping) (st st1 : BuildState)
    (h1 : buildLoop e l1 st = .ok st1) :
    buildLoop e (l1 ++ l2) st = buildLoop e l2 st1 := by
  rw [buildLoop_append, h1]

theorem buildLoop_append_error (e : Source → Except ExtractError Value)
    (l1 l2 : List FieldMapping) (st : BuildState) (err : BuildError)
    (h1 : buildLoop e l1 st = .error err) :
    buildLoop e (l1 ++ l2) st = .error err := by
  rw [buildLoop_append, h1]

theorem buildLoop_snoc_ok_inv (e : Source → Except ExtractError Value)
    (ms : List FieldMapping) (m : FieldMapping) (st : BuildState)
    (h : buildLoop e (ms ++ [m]) ⟨[], none⟩ = .ok st) :
    ∃ st1, buildLoop e ms ⟨[], none⟩ = .ok st1 ∧
      processMapping e m st1 = .ok st := by
  cases h1 : buildLoop e ms ⟨[], none⟩ with
  | error err =>
    rw [buildLoop_append_error e ms [m] _ err h1] at h
    cases h
  | ok st1 =>
    rw [buildLoop_append_ok e ms [m] _ st1 h1, buildLoop_singleton] at h
    exact ⟨st1, rfl, h⟩

theorem buildOutput_ok_inv (e : Source → Except ExtractError Value)
    (ms : List FieldMapping) (d : Value)
    (h : buildOutput e ms = .ok d) :
    ∃ st, buildLoop e ms ⟨[], none⟩ = .ok st ∧
      (st.rootValue = some d ∨ (st.rootValue = none ∧ d = .obj st.output)) := by
  cases hl : buildLoop e ms ⟨[], none⟩ with
  | error err =>
    have hbad : buildOutput e ms = .error err := by
      unfold buildOutput
      rw [hl]
    rw [hbad] at h
    cases h
  | ok st =>
    have heq := buildOutput_of_loop e ms st hl
    rw [h] at heq
    cases hr : st.rootValue with
    | some v =>
      simp only [hr] at heq
      injection heq with heq
      exact ⟨st, rfl, Or.inl (by rw [hr, heq])⟩
    | none =>
      simp only [hr] at heq
      injection heq with heq
      exact ⟨st, rfl, Or.inr ⟨hr, heq⟩⟩

/-- The generalized run of the loop over keyed-only rules with pairwise
distinct destination keys, from an arbitrary keyed-output map. -/
theorem buildLoop_keyedOnly (e : Source → Except ExtractError Value) :
    ∀ (ms : List FieldMapping) (out0 : List (String × Value)),
      (∀ m ∈ ms, m.root = false) →
      (ms.map FieldMapping.to').Nodup →
      (∀ m ∈ ms, ∃ v, e m.from' = .ok v) →
      ∃ out, buildLoop e ms ⟨out0, none⟩ = .ok ⟨out, none⟩
        ∧ (∀ k, k ∉ ms.map FieldMapping.to' → lookupKV out k = lookupKV out0 k)
        ∧ (∀ m ∈ ms, ∀ v, e m.from' = .ok v → lookupKV out m.to' = some v)
        ∧ (∀ k, (lookupKV out k).isSome = true ↔
            (k ∈ ms.map FieldMapping.to' ∨ (lookupKV out0 k).isSome = true)) := by
  intro ms
  induction ms with
  | nil =>
    intro out0 _ _ _
    exact ⟨out0, rfl, fun _ _ => rfl, by simp, by simp⟩
  | cons m rest ih =>
    intro out0 hroot hnd hex
    obtain ⟨v, hv⟩ := hex m (by simp)
    have hm : m.root = false := hroot m (by simp)
    have hstep : processMapping e m ⟨out0, none⟩
        = .ok ⟨insertKV out0 m.to' v, none⟩ := by
      rw [processMapping_keyed_eq e m ⟨out0, none⟩ v hv hm]
      simp
    have hnd' : (rest.map FieldMapping.to').Nodup := by
      have := hnd
      simp only [List.map_cons, List.nodup_cons] at this
      exact this.2
    have hto : m.to' ∉ rest.map FieldMapping.to' := by
      have := hnd
      simp only [List.map_cons, List.nodup_cons] at this
      exact this.1
    obtain ⟨out, hloop, hpresk, hvals, hkeys⟩ := ih (insertKV out0 m.to' v)
      (fun m' hm' => hroot m' (by simp [hm'])) hnd'
      (fun m' hm' => hex m' (by simp [hm']))
    refine ⟨out, ?_, ?_, ?_, ?_⟩
    · simp only [buildLoop, hstep]
      exact hloop
    · intro k hk
      have hk1 : k ∉ rest.map FieldMapping.to' := fun hc => hk (by simp [hc])
      have hk2 : m.to' ≠ k := fun hc => hk (by simp [hc])
      rw [hpresk k hk1, lookupKV_insertKV, if_neg hk2]
    · intro m' hm' v' hv'
      rcases List.mem_cons.mp hm' with rfl | h1
      · rw [hpresk m'.to' hto, lookupKV_insertKV, if_pos rfl]
        rw [hv] at hv'
        injection hv' with hv'
        rw [hv']
      · exact hvals m' h1 v' hv'
    · intro k
      rw [hkeys k, lookupKV_insertKV]
      by_cases hc : m.to' = k
      · subst hc
        simp
      · rw [if_neg hc]
        simp only [List.map_cons, List.mem_cons]
        have hck : ¬k = m.to' := fun h1 => hc h1.symm
        tauto

/-! ### Claim theorems -/

/-- Claim C1: at most one scalar (non-object) root per request — during an
assembly run, a rule errors with a mixed-root error whenever a scalar root is
already set (keyed rule, object-root rule, or a second scalar root), and a
non-object root rule also errors with a mixed-root error when the keyed-output
object already has any keys. -/
theorem mixedRoot_exclusion (e : Source → Except ExtractError Value)
    (pre post : List FieldMapping) (m : FieldMapping) (st : BuildState)
    (v : Value)
    (hpre : buildLoop e pre ⟨[], none⟩ = .ok st)
    (hex : e m.from' = .ok v)
    (hcond : st.rootValue.isSome = true ∨
      (m.root = true ∧ v.isObj = false ∧ st.output ≠ [])) :
    ∃ err, buildOutput e (pre ++ m :: post) = .error err ∧
      err.isMixedRoot = true := by
  have hstep : ∃ err, processMapping e m st = .error err ∧
      err.isMixedRoot = true := by
    rcases hcond with hroot | ⟨hm, hobj, hout⟩
    · by_cases hm : m.root = true
      · by_cases hvo : v.isObj = true
        · obtain ⟨o, rfl⟩ := (Value.isObj_iff v).mp hvo
          exact ⟨.mixedRootObjectAfterScalar m.from',
            by rw [processMapping_objRoot_eq e m st o hex hm, if_pos hroot], rfl⟩
        · rw [processMapping_scalarRoot_eq e m st v hex hm
            (by simpa using hvo)]
          by_cases hl : st.output.length > 0
          · exact ⟨.scalarRootAfterKeyed m.from', by rw [if_pos hl], rfl⟩
          · exact ⟨.scalarRootTwice m.from',
              by rw [if_neg hl, if_pos hroot], rfl⟩
      · exact ⟨.keyedAfterScalarRoot m.from',
          by rw [processMapping_keyed_eq e m st v hex (by simpa using hm),
            if_pos hroot], rfl⟩
    · rw [processMapping_scalarRoot_eq e m st v hex hm hobj]
      have hl : st.output.length > 0 := List.length_pos.mpr hout
      exact ⟨.scalarRootAfterKeyed m.from', by rw [if_pos hl], rfl⟩
  obtain ⟨err, hstep, hmix⟩ := hstep
  exact ⟨err, buildOutput_error_of_step e pre post m st err hpre hstep, hmix⟩

/-- Witness for C1 on closed input: end-to-end scenario 4 of the spec, a
scalar method root followed by a keyed path rule. -/
theorem mixedRoot_exclusion_witness :
    ∃ err, buildOutput exA [⟨SourceMethod, "", true⟩, ⟨SourcePath, "p", false⟩]
      = .error err ∧ err.isMixedRoot = true :=
  mixedRoot_exclusion exA [⟨SourceMethod, "", true⟩] [] ⟨SourcePath, "p", false⟩
    ⟨[], some (.str "POST")⟩ (.str "/hook") rfl rfl (Or.inl rfl)

/-- Claim C2: for a root rule whose extracted value is an object, assembly
merges each of the object's keys into the keyed-output object, and fails with
a root-collision error exactly when some merged key already exists in the
keyed-output object. -/
theorem objRoot_merge_characterization (e : Source → Except ExtractError Value)
    (pre post : List FieldMapping) (m : FieldMapping) (st : BuildState)
    (o : List (String × Value))
    (hpre : buildLoop e pre ⟨[], none⟩ = .ok st)
    (hex : e m.from' = .ok (.obj o))
    (hm : m.root = true)
    (hscalar : st.rootValue = none)
    (hnd : (o.map Prod.fst).Nodup) :
    ((∃ k ∈ o.map Prod.fst, (lookupKV st.output k).isSome = true) →
      ∃ err, buildOutput e (pre ++ m :: post) = .error err ∧
        err.isRootCollision = true)
    ∧ ((∀ k ∈ o.map Prod.fst, lookupKV st.output k = none) →
      ∃ out, buildLoop e (pre ++ [m]) ⟨[], none⟩ = .ok ⟨out, none⟩ ∧
        ∀ k, lookupKV out k =
          (lookupKV o k).orElse (fun _ => lookupKV st.output k)) := by
  have hroot : st.rootValue.isSome = false := by rw [hscalar]; rfl
  constructor
  · rintro ⟨k, hk, hsome⟩
    have hko : (lookupKV o k).isSome = true :=
      (lookupKV_isSome_iff_mem o k).mpr hk
    obtain ⟨kc, hmerge⟩ := mergeRootObject_overlap_error o k st.output hko hsome
    have hstep : processMapping e m st = .error (.rootCollision m.from' kc) := by
      rw [processMapping_objRoot_eq e m st o hex hm, if_neg (by simp [hroot]),
        hmerge]
    exact ⟨.rootCollision m.from' kc,
      buildOutput_error_of_step e pre post m st _ hpre hstep, rfl⟩
  · intro hdisj
    obtain ⟨out, hmerge, hlook⟩ := mergeRootObject_disjoint_ok o st.output hnd hdisj
    have hstep : processMapping e m st = .ok ⟨out, none⟩ := by
      rw [processMapping_objRoot_eq e m st o hex hm, if_neg (by simp [hroot]),
        hmerge, hscalar]
    exact ⟨out, buildLoop_snoc_ok e pre m st ⟨out, none⟩ hpre hstep, hlook⟩

/-- Witness for C2 on closed input: end-to-end scenario 3 of the spec at the
value level — a body object root followed by a query object root, both
containing key `id`, collide. -/
theorem objRoot_merge_characterization_witness :
    ∃ err, buildOutput exA [⟨SourceBody, "", true⟩, ⟨SourceQuery, "", true⟩]
      = .error err ∧ err.isRootCollision = true :=
  (objRoot_merge_characterization exA [⟨SourceBody, "", true⟩] []
      ⟨SourceQuery, "", true⟩
      ⟨[("id", Value.num 1), ("event", Value.str "x")], none⟩
      [("id", Value.str "7"), ("page", Value.str "2")] rfl rfl rfl rfl
      (by decide)).1
    ⟨"id", by decide, rfl⟩

/-- Claim C3: with no root rules and exactly one keyed rule per distinct `to`
key, assembly succeeds with the object whose key set is exactly the `to`
values and whose value at each key is that rule's extracted value; and in
general, the final document is the scalar root when one was set, otherwise the
keyed-output object. -/
theorem keyedOnly_document :
    (∀ (e : Source → Except ExtractError Value) (ms : List FieldMapping),
      (∀ m ∈ ms, m.root = false) →
      (ms.map FieldMapping.to').Nodup →
      (∀ m ∈ ms, ∃ v, e m.from' = .ok v) →
      ∃ out, buildOutput e ms = .ok (.obj out)
        ∧ (∀ m ∈ ms, ∀ v, e m.from' = .ok v → lookupKV out m.to' = some v)
        ∧ (∀ k, (lookupKV out k).isSome = true ↔ k ∈ ms.map FieldMapping.to'))
    ∧ (∀ (e : Source → Except ExtractError Value) (ms : List FieldMapping)
        (st : BuildState),
      buildLoop e ms ⟨[], none⟩ = .ok st →
      buildOutput e ms =
        (match st.rootValue with
        | some v => Except.ok v
        | none => Except.ok (.obj st.output))) := by
  constructor
  · intro e ms hroot hnd hex
    obtain ⟨out, hloop, _, hvals, hkeys⟩ := buildLoop_keyedOnly e ms [] hroot hnd hex
    refine ⟨out, ?_, hvals, ?_⟩
    · rw [buildOutput_of_loop e ms ⟨out, none⟩ hloop]
    · intro k
      rw [hkeys k]
      simp [lookupKV]
  · exact buildOutput_of_loop

/-- Witness for C3 on closed input: end-to-end keyed assembly of method and
path, and a scalar root returned as the whole document. -/
theorem keyedOnly_document_witness :
    (∃ out,
      buildOutput exA
          [⟨SourceMethod, "method", false⟩, ⟨SourcePath, "path", false⟩]
        = .ok (.obj out)
      ∧ (∀ m ∈ [(⟨SourceMethod, "method", false⟩ : FieldMapping),
            ⟨SourcePath, "path", false⟩],
          ∀ v, exA m.from' = .ok v → lookupKV out m.to' = some v)
      ∧ (∀ k, (lookupKV out k).isSome = true ↔
          k ∈ [(⟨SourceMethod, "method", false⟩ : FieldMapping),
            ⟨SourcePath, "path", false⟩].map FieldMapping.to'))
    ∧ buildOutput exA [⟨SourceMethod, "m", true⟩] = .ok (.str "POST") :=
  ⟨keyedOnly_document.1 exA
      [⟨SourceMethod, "method", false⟩, ⟨SourcePath, "path", false⟩]
      (by decide) (by decide)
      (by
        intro m hm
        rcases List.mem_cons.mp hm with rfl | hm1
        · exact ⟨_, rfl⟩
        · rcases List.mem_cons.mp hm1 with rfl | hm2
          · exact ⟨_, rfl⟩
          · simp at hm2),
    keyedOnly_document.2 exA [⟨SourceMethod, "m", true⟩]
      ⟨[], some (.str "POST")⟩ rfl⟩

/-- Claim C4: keyed assignment is last-write-wins — when no scalar root is
set, a keyed rule always succeeds, unconditionally overwriting the value at
its `to` key with no collision check, and repeating an identical keyed rule at
the end of a rule list produces the same document with no error. -/
theorem keyed_lastWriteWins :
    (∀ (e : Source → Except ExtractError Value) (m : FieldMapping)
        (st : BuildState) (v : Value),
      m.root = false → st.rootValue = none → e m.from' = .ok v →
      processMapping e m st = .ok ⟨insertKV st.output m.to' v, none⟩ ∧
        lookupKV (insertKV st.output m.to' v) m.to' = some v)
    ∧ (∀ (e : Source → Except ExtractError Value) (ms : List FieldMapping)
        (m : FieldMapping) (d : Value),
      m.root = false → buildOutput e (ms ++ [m]) = .ok d →
      buildOutput e (ms ++ [m, m]) = .ok d) := by
  constructor
  · intro e m st v hm hscalar hex
    constructor
    · rw [processMapping_keyed_eq e m st v hex hm, hscalar]
      simp
    · rw [lookupKV_insertKV, if_pos rfl]
  · intro e ms m d hm hok
    obtain ⟨st, hloop, hshape⟩ := buildOutput_ok_inv e (ms ++ [m]) d hok
    obtain ⟨st1, h1, hstep⟩ := buildLoop_snoc_ok_inv e ms m st hloop
    cases he : e m.from' with
    | error err =>
      rw [processMapping_extractError_eq e m st1 err he] at hstep
      cases hstep
    | ok v =>
      rw [processMapping_keyed_eq e m st1 v he hm] at hstep
      by_cases hrs : st1.rootValue.isSome = true
      · rw [if_pos hrs] at hstep
        cases hstep
      · rw [if_neg hrs] at hstep
        have hnone : st1.rootValue = none := Option.not_isSome_iff_eq_none.mp hrs
        rw [hnone] at hstep
        injection hstep with hstep
        subst hstep
        have hstep1 : processMapping e m st1
            = .ok ⟨insertKV st1.output m.to' v, none⟩ := by
          rw [processMapping_keyed_eq e m st1 v he hm, if_neg hrs, hnone]
        have hstep2 : processMapping e m ⟨insertKV st1.output m.to' v, none⟩
            = .ok ⟨insertKV (insertKV st1.output m.to' v) m.to' v, none⟩ := by
          rw [processMapping_keyed_eq e m _ v he hm]
          simp
        have hloop2 : buildLoop e (ms ++ [m, m]) ⟨[], none⟩
            = .ok ⟨insertKV (insertKV st1.output m.to' v) m.to' v, none⟩ := by
          rw [buildLoop_append_ok e ms [m, m] _ st1 h1]
          simp [buildLoop, hstep1, hstep2]
        rw [insertKV_insertKV_same] at hloop2
        rw [buildOutput_of_loop e (ms ++ [m, m]) _ hloop2]
        rcases hshape with hsome | ⟨_, hd⟩
        · cases hsome
        · rw [hd]

/-- Witness for C4 on closed input: a keyed rule overwrites an existing value
at its key with no error, and duplicating a keyed method rule yields the same
single-key document. -/
theorem keyed_lastWriteWins_witness :
    (processMapping exA ⟨SourceMethod, "x", false⟩ ⟨[("x", Value.str "old")], none⟩
        = Except.ok ⟨insertKV [("x", Value.str "old")] "x" (Value.str "POST"), none⟩ ∧
      lookupKV (insertKV [("x", Value.str "old")] "x" (Value.str "POST")) "x"
        = some (Value.str "POST")) ∧
      buildOutput exA
          [⟨SourceMethod, "method", false⟩, ⟨SourceMethod, "method", false⟩]
        = .ok (Value.obj [("method", Value.str "POST")]) :=
  ⟨keyed_lastWriteWins.1 exA ⟨SourceMethod, "x", false⟩
      ⟨[("x", Value.str "old")], none⟩ (Value.str "POST") rfl rfl rfl,
    keyed_lastWriteWins.2 exA [] ⟨SourceMethod, "method", false⟩
      (Value.obj [("method", Value.str "POST")]) rfl rfl⟩

/-- Claim C5: body extraction is total — the empty byte sequence yields the
empty object, a decodable sequence yields its decoded value, and any other
sequence yields the raw bytes as a string; never an error. -/
theorem parseBody_total (decode : String → Option Value) (raw : String) :
    (∃ v, parseBody decode raw = .ok v)
    ∧ (raw = "" → parseBody decode raw = .ok (.obj []))
    ∧ (∀ v, raw ≠ "" → decode raw = some v → parseBody decode raw = .ok v)
    ∧ (raw ≠ "" → decode raw = none → parseBody decode raw = .ok (.str raw)) := by
  refine ⟨?_, ?_, ?_, ?_⟩
  · unfold parseBody
    by_cases h : raw.length = 0
    · exact ⟨.obj [], by rw [if_pos h]⟩
    · rw [if_neg h]
      cases hd : decode raw with
      | some v => exact ⟨v, rfl⟩
      | none => exact ⟨.str raw, rfl⟩
  · intro h
    subst h
    rfl
  · intro v hne hd
    unfold parseBody
    rw [if_neg (fun h => hne ((stringLengthZero raw).mp h)), hd]
  · intro hne hd
    unfold parseBody
    rw [if_neg (fun h => hne ((stringLengthZero raw).mp h)), hd]

/-- Witness for C5 on closed inputs: empty body, decodable body, and
non-decodable body. -/
theorem parseBody_total_witness :
    (∃ v, parseBody (fun _ => none) "hi" = Except.ok v)
    ∧ parseBody (fun _ => none) "" = .ok (.obj [])
    ∧ parseBody (fun s => if s = "17" then some (Value.num 17) else none) "17"
        = .ok (.num 17)
    ∧ parseBody (fun _ => none) "hi" = .ok (.str "hi") :=
  ⟨(parseBody_total (fun _ => none) "hi").1,
    (parseBody_total (fun _ => none) "").2.1 rfl,
    (parseBody_total (fun s => if s = "17" then some (Value.num 17) else none)
      "17").2.2.1 (Value.num 17) (by decide) rfl,
    (parseBody_total (fun _ => none) "hi").2.2.2 (by decide) rfl⟩

/-- A single object-root rule, run from the empty state, succeeds and leaves
a keyed-output map with exactly the object's bindings. -/
theorem buildLoop_singleObjRoot (e : Source → Except ExtractError Value)
    (s : Source) (t : String) (o : List (String × Value))
    (hex : e s = .ok (.obj o)) (hnd : (o.map Prod.fst).Nodup) :
    ∃ u, buildLoop e [⟨s, t, true⟩] ⟨[], none⟩ = .ok ⟨u, none⟩ ∧
      ∀ k, lookupKV u k = lookupKV o k := by
  obtain ⟨u, hu, hulook⟩ := mergeRootObject_disjoint_ok o [] hnd
    (by intro k _; rfl)
  refine ⟨u, ?_, ?_⟩
  · rw [buildLoop_singleton,
      processMapping_objRoot_eq e ⟨s, t, true⟩ ⟨[], none⟩ o hex rfl,
      if_neg (by simp), hu]
  · intro k
    rw [hulook k]
    cases ho : lookupKV o k <;> simp [lookupKV, Option.orElse]

/-- Claim C6: root merge is commutative for object sources with disjoint key
sets — both rule orders succeed with pointwise-equal documents — while with
an overlapping key both rule orders fail with a root-collision error. -/
theorem rootMerge_commutative (e : Source → Except ExtractError Value)
    (s1 s2 : Source) (t1 t2 : String) (o1 o2 : List (String × Value))
    (h1 : e s1 = .ok (.obj o1)) (h2 : e s2 = .ok (.obj o2))
    (hnd1 : (o1.map Prod.fst).Nodup) (hnd2 : (o2.map Prod.fst).Nodup) :
    ((∀ k, (lookupKV o1 k).isSome = true → lookupKV o2 k = none) →
      ∃ u1 u2,
        buildOutput e [⟨s1, t1, true⟩, ⟨s2, t2, true⟩] = .ok (.obj u1)
        ∧ buildOutput e [⟨s2, t2, true⟩, ⟨s1, t1, true⟩] = .ok (.obj u2)
        ∧ ∀ k, lookupKV u1 k = lookupKV u2 k)
    ∧ ((∃ k, (lookupKV o1 k).isSome = true ∧ (lookupKV o2 k).isSome = true) →
      (∃ err1, buildOutput e [⟨s1, t1, true⟩, ⟨s2, t2, true⟩] = .error err1 ∧
        err1.isRootCollision = true)
      ∧ (∃ err2, buildOutput e [⟨s2, t2, true⟩, ⟨s1, t1, true⟩] = .error err2 ∧
        err2.isRootCollision = true)) := by
  obtain ⟨u1a, hl1, hu1a⟩ := buildLoop_singleObjRoot e s1 t1 o1 h1 hnd1
  obtain ⟨u2a, hl2, hu2a⟩ := buildLoop_singleObjRoot e s2 t2 o2 h2 hnd2
  constructor
  · intro hdisj
    have hdisj' : ∀ k, (lookupKV o2 k).isSome = true → lookupKV o1 k = none := by
      intro k hk2
      cases ho1 : lookupKV o1 k with
      | none => rfl
      | some v =>
        have : lookupKV o2 k = none := hdisj k (by rw [ho1]; rfl)
        rw [this] at hk2
        cases hk2
    have hd21 : ∀ k ∈ o2.map Prod.fst, lookupKV u1a k = none := by
      intro k hk
      rw [hu1a k]
      exact hdisj' k ((lookupKV_isSome_iff_mem o2 k).mpr hk)
    have hd12 : ∀ k ∈ o1.map Prod.fst, lookupKV u2a k = none := by
      intro k hk
      rw [hu2a k]
      exact hdisj k ((lookupKV_isSome_iff_mem o1 k).mpr hk)
    obtain ⟨w1, hw1, hw1look⟩ := mergeRootObject_disjoint_ok o2 u1a hnd2 hd21
    obtain ⟨w2, hw2, hw2look⟩ := mergeRootObject_disjoint_ok o1 u2a hnd1 hd12
    have hstep1 : processMapping e ⟨s2, t2, true⟩ ⟨u1a, none⟩ = .ok ⟨w1, none⟩ := by
      rw [processMapping_objRoot_eq e ⟨s2, t2, true⟩ ⟨u1a, none⟩ o2 h2 rfl,
        if_neg (by simp), hw1]
    have hstep2 : processMapping e ⟨s1, t1, true⟩ ⟨u2a, none⟩ = .ok ⟨w2, none⟩ := by
      rw [processMapping_objRoot_eq e ⟨s1, t1, true⟩ ⟨u2a, none⟩ o1 h1 rfl,
        if_neg (by simp), hw2]
    have hloop12 : buildLoop e [⟨s1, t1, true⟩, ⟨s2, t2, true⟩] ⟨[], none⟩
        = .ok ⟨w1, none⟩ := by
      have hx := buildLoop_append_ok e [⟨s1, t1, true⟩] [⟨s2, t2, true⟩]
        ⟨[], none⟩ ⟨u1a, none⟩ hl1
      rw [buildLoop_singleton, hstep1] at hx
      exact hx
    have hloop21 : buildLoop e [⟨s2, t2, true⟩, ⟨s1, t1, true⟩] ⟨[], none⟩
        = .ok ⟨w2, none⟩ := by
      have hx := buildLoop_append_ok e [⟨s2, t2, true⟩] [⟨s1, t1, true⟩]
        ⟨[], none⟩ ⟨u2a, none⟩ hl2
      rw [buildLoop_singleton, hstep2] at hx
      exact hx
    refine ⟨w1, w2, ?_, ?_, ?_⟩
    · rw [buildOutput_of_loop e _ _ hloop12]
    · rw [buildOutput_of_loop e _ _ hloop21]
    · intro k
      rw [hw1look k, hw2look k, hu1a k, hu2a k]
      cases ho1 : lookupKV o1 k with
      | none => cases ho2 : lookupKV o2 k <;> simp [Option.orElse]
      | some v1 =>
        have ho2 : lookupKV o2 k = none := hdisj k (by rw [ho1]; rfl)
        rw [ho2]
        simp [Option.orElse]
  · rintro ⟨k, hk1, hk2⟩
    have hk1' : (lookupKV u1a k).isSome = true := by rw [hu1a k]; exact hk1
    have hk2' : (lookupKV u2a k).isSome = true := by rw [hu2a k]; exact hk2
    obtain ⟨kc1, hm1⟩ := mergeRootObject_overlap_error o2 k u1a hk2 hk1'
    obtain ⟨kc2, hm2⟩ := mergeRootObject_overlap_error o1 k u2a hk1 hk2'
    have hstep1 : processMapping e ⟨s2, t2, true⟩ ⟨u1a, none⟩
        = .error (.rootCollision s2 kc1) := by
      rw [processMapping_objRoot_eq e ⟨s2, t2, true⟩ ⟨u1a, none⟩ o2 h2 rfl,
        if_neg (by simp), hm1]
    have hstep2 : processMapping e ⟨s1, t1, true⟩ ⟨u2a, none⟩
        = .error (.rootCollision s1 kc2) := by
      rw [processMapping_objRoot_eq e ⟨s1, t1, true⟩ ⟨u2a, none⟩ o1 h1 rfl,
        if_neg (by simp), hm2]
    exact ⟨⟨.rootCollision s2 kc1,
        buildOutput_error_of_step e [⟨s1, t1, true⟩] [] ⟨s2, t2, true⟩
          ⟨u1a, none⟩ _ hl1 hstep1, rfl⟩,
      ⟨.rootCollision s1 kc2,
        buildOutput_error_of_step e [⟨s2, t2, true⟩] [] ⟨s1, t1, true⟩
          ⟨u2a, none⟩ _ hl2 hstep2, rfl⟩⟩

/-- Witness for C6 on closed inputs: body and headers merge in either order
to pointwise-equal documents; body and query, both holding `id`, collide in
either order. -/
theorem rootMerge_commutative_witness :
    (∃ u1 u2,
      buildOutput exA [⟨SourceBody, "", true⟩, ⟨SourceHeaders, "", true⟩]
        = .ok (.obj u1)
      ∧ buildOutput exA [⟨SourceHeaders, "", true⟩, ⟨SourceBody, "", true⟩]
        = .ok (.obj u2)
      ∧ ∀ k, lookupKV u1 k = lookupKV u2 k)
    ∧ ((∃ err1, buildOutput exA [⟨SourceBody, "", true⟩, ⟨SourceQuery, "", true⟩]
          = .error err1 ∧ err1.isRootCollision = true)
      ∧ (∃ err2, buildOutput exA [⟨SourceQuery, "", true⟩, ⟨SourceBody, "", true⟩]
          = .error err2 ∧ err2.isRootCollision = true)) :=
  ⟨(rootMerge_commutative exA SourceBody SourceHeaders "" ""
      [("id", Value.num 1), ("event", Value.str "x")] [("ua", Value.str "curl")]
      rfl rfl (by decide) (by decide)).1
      (by
        intro k h
        by_cases hk : "ua" = k
        · subst hk
          exact absurd h (by decide)
        · simp [lookupKV, hk]),
    (rootMerge_commutative exA SourceBody SourceQuery "" ""
      [("id", Value.num 1), ("event", Value.str "x")]
      [("id", Value.str "7"), ("page", Value.str "2")]
      rfl rfl (by decide) (by decide)).2 ⟨"id", rfl, rfl⟩⟩

/-- Claim C7: fail-fast on extraction errors — when a rule's extraction
fails after the earlier rules processed successfully, assembly returns the
extraction error tagged with that rule's source and destination, independent
of all later rules. -/
theorem extraction_failFast (e : Source → Except ExtractError Value)
    (pre post : List FieldMapping) (m : FieldMapping) (st : BuildState)
    (err : ExtractError)
    (hpre : buildLoop e pre ⟨[], none⟩ = .ok st)
    (hex : e m.from' = .error err) :
    buildOutput e (pre ++ m :: post) = .error (.extraction m.from' m.to' err) :=
  buildOutput_error_of_step e pre post m st _ hpre
    (processMapping_extractError_eq e m st err hex)

/-- Witness for C7 on closed input: an unsupported source aborts assembly
before the later rules run. -/
theorem extraction_failFast_witness :
    buildOutput exA [⟨"bogus", "b", false⟩, ⟨SourceMethod, "method", false⟩]
      = .error (.extraction "bogus" "b" (.unsupportedSource "bogus")) :=
  extraction_failFast exA [] [⟨SourceMethod, "method", false⟩]
    ⟨"bogus", "b", false⟩ ⟨[], none⟩ (.unsupportedSource "bogus") rfl rfl

theorem lookupKV_multiMapToValue (l : List (String × List String)) (k : String) :
    lookupKV (multiMapToValue l) k
      = (lookupKV l k).map (fun vs => Value.arr (vs.map Value.str)) := by
  induction l with
  | nil => rfl
  | cons p rest ih =>
    obtain ⟨k0, vs⟩ := p
    show lookupKV ((k0, Value.arr (vs.map Value.str)) :: multiMapToValue rest) k
      = _
    by_cases h : k0 = k <;> simp [lookupKV, h, ih]

/-- Claim C8: extracting the `query` source yields an object mapping each
query parameter name to all of its received values, including repeated
parameter names. -/
theorem queryExtraction_allValues (c : RequestContext) (name : String)
    (vals : List String)
    (h : lookupKV c.queryParams name = some vals) :
    ∃ o, extractValue c SourceQuery = .ok (.obj o) ∧
      lookupKV o name = some (.arr (vals.map Value.str)) := by
  refine ⟨multiMapToValue c.queryParams, rfl, ?_⟩
  rw [lookupKV_multiMapToValue, h]
  rfl

/-- A concrete sample request context whose query string repeats `tag`. -/
def ctxA : RequestContext :=
  ⟨"", [("accept", ["a"])], [("tag", ["x", "y"]), ("page", ["1"])], [],
    "GET", "/", "127.0.0.1", fun _ => none⟩

/-- Witness for C8 on closed input: the repeated `tag` parameter keeps both
of its values. -/
theorem queryExtraction_allValues_witness :
    ∃ o, extractValue ctxA SourceQuery = .ok (.obj o) ∧
      lookupKV o "tag" = some (.arr (["x", "y"].map Value.str)) :=
  queryExtraction_allValues ctxA "tag" ["x", "y"] rfl

/-- Claim C9: at every step of assembly, if the scalar-root slot is set the
keyed-output object is empty; consequently a non-object result document is
exactly the scalar root and coexists with no keyed fields. -/
theorem scalarRoot_keyedOutput_invariant :
    (∀ (e : Source → Except ExtractError Value) (ms : List FieldMapping)
        (st : BuildState),
      buildLoop e ms ⟨[], none⟩ = .ok st →
      st.rootValue.isSome = true → st.output = [])
    ∧ (∀ (e : Source → Except ExtractError Value) (ms : List FieldMapping)
        (d : Value),
      buildOutput e ms = .ok d → d.isObj = false →
      ∃ st, buildLoop e ms ⟨[], none⟩ = .ok st ∧
        st.rootValue = some d ∧ st.output = []) := by
  have hinv : ∀ (e : Source → Except ExtractError Value) ms st,
      buildLoop e ms ⟨[], none⟩ = .ok st → st.inv :=
    fun e ms st h => buildLoop_inv (fun _ => rfl) h
  constructor
  · exact fun e ms st h => hinv e ms st h
  · intro e ms d hok hobj
    obtain ⟨st, hloop, hshape⟩ := buildOutput_ok_inv e ms d hok
    rcases hshape with hsome | ⟨_, hd⟩
    · exact ⟨st, hloop, hsome, hinv e ms st hloop (by rw [hsome]; rfl)⟩
    · rw [hd] at hobj
      simp [Value.isObj] at hobj

/-- Witness for C9 on closed input: a scalar method root leaves the keyed
output empty and is returned as the whole non-object document. -/
theorem scalarRoot_keyedOutput_invariant_witness :
    ([] : List (String × Value)) = [] ∧
    ∃ st, buildLoop exA [⟨SourceMethod, "", true⟩] ⟨[], none⟩ = .ok st ∧
      st.rootValue = some (.str "POST") ∧ st.output = [] :=
  ⟨scalarRoot_keyedOutput_invariant.1 exA [⟨SourceMethod, "", true⟩]
      ⟨[], some (Value.str "POST")⟩ rfl rfl,
    scalarRoot_keyedOutput_invariant.2 exA [⟨SourceMethod, "", true⟩]
      (Value.str "POST") rfl rfl⟩

/-- A second sample extraction function: an empty object body and a GET
method. -/
def exB : Source → Except ExtractError Value := fun s =>
  if s = SourceBody then .ok (.obj [])
  else if s = SourceMethod then .ok (.str "GET")
  else .error (.unsupportedSource s)

/-- Claim C10: a root rule extracting an empty object is an identity on the
assembler state, so a non-object root arriving after only empty object-root
merges still succeeds and the whole document is that scalar. -/
theorem emptyObjRoot_identity :
    (∀ (e : Source → Except ExtractError Value) (m : FieldMapping)
        (st : BuildState),
      m.root = true → e m.from' = .ok (.obj []) → st.rootValue = none →
      processMapping e m st = .ok st)
    ∧ (∀ (e : Source → Except ExtractError Value) (ms : List FieldMapping)
        (m : FieldMapping) (v : Value),
      (∀ r ∈ ms, r.root = true ∧ e r.from' = .ok (.obj [])) →
      m.root = true → e m.from' = .ok v → v.isObj = false →
      buildOutput e (ms ++ [m]) = .ok v) := by
  have hid : ∀ (e : Source → Except ExtractError Value) (m : FieldMapping) st,
      m.root = true → e m.from' = .ok (.obj []) → st.rootValue = none →
      processMapping e m st = .ok st := by
    intro e m st hm hex hscalar
    rw [processMapping_objRoot_eq e m st [] hex hm,
      if_neg (by simp [hscalar])]
    rfl
  refine ⟨hid, ?_⟩
  intro e ms m v hms hm hex hobj
  have hloop : ∀ ms0 : List FieldMapping,
      (∀ r ∈ ms0, r.root = true ∧ e r.from' = .ok (.obj [])) →
      buildLoop e ms0 ⟨[], none⟩ = .ok ⟨[], none⟩ := by
    intro ms0
    induction ms0 with
    | nil => intro _; rfl
    | cons r rest ih =>
      intro hms0
      have hr := hms0 r (by simp)
      have hstep : processMapping e r ⟨[], none⟩ = .ok ⟨[], none⟩ :=
        hid e r ⟨[], none⟩ hr.1 hr.2 rfl
      simp only [buildLoop, hstep]
      exact ih (fun r' hr' => hms0 r' (by simp [hr']))
  have hstepm : processMapping e m ⟨[], none⟩ = .ok ⟨[], some v⟩ := by
    rw [processMapping_scalarRoot_eq e m ⟨[], none⟩ v hex hm hobj]
    simp
  have hfull : buildLoop e (ms ++ [m]) ⟨[], none⟩ = .ok ⟨[], some v⟩ := by
    rw [buildLoop_append_ok e ms [m] _ _ (hloop ms hms), buildLoop_singleton,
      hstepm]
  rw [buildOutput_of_loop e (ms ++ [m]) _ hfull]

/-- Witness for C10 on closed inputs: merging the empty body object changes
nothing, and a method scalar root after it becomes the whole document. -/
theorem emptyObjRoot_identity_witness :
    processMapping exB ⟨SourceBody, "", true⟩ ⟨[("k", Value.num 0)], none⟩
        = .ok ⟨[("k", Value.num 0)], none⟩ ∧
      buildOutput exB [⟨SourceBody, "", true⟩, ⟨SourceMethod, "", true⟩]
        = .ok (.str "GET") :=
  ⟨emptyObjRoot_identity.1 exB ⟨SourceBody, "", true⟩
      ⟨[("k", Value.num 0)], none⟩ rfl rfl rfl,
    emptyObjRoot_identity.2 exB [⟨SourceBody, "", true⟩] ⟨SourceMethod, "", true⟩
      (Value.str "GET")
      (by
        intro r hr
        rcases List.mem_cons.mp hr with rfl | hr1
        · exact ⟨rfl, rfl⟩
        · simp at hr1)
      rfl rfl rfl⟩

end Webhook2Stdout
